import Mathlib

/-!
Verification of the deep-agents shared-state layer: the virtual file
store, the TODO store, the state merge rule (`file_reducer`) and the
task-delegation tool, shallowly embedded from
`src/deep_agents_libs/{state,file_tools,todo_tools,task_tool}.py`.

Python dictionaries are modelled as insertion-ordered association
lists with unique keys; `d[k] = v` updates the value in place when the
key is present and appends otherwise, exactly as CPython does.
-/

namespace DeepAgents


/-- Python `d.get(k)` / `d[k]`: first (and for a real dict, only)
binding of the key. -/
def lookupKV {α : Type} : List (String × α) → String → Option α
  | [], _ => none
  | (k', v) :: rest, k => if k' = k then some v else lookupKV rest k

/-- Python `d[k] = v`: replace the value at the first occurrence of the
key, keeping its position; append the pair when the key is absent. -/
def insKV {α : Type} : List (String × α) → String → α → List (String × α)
  | [], k, v => [(k, v)]
  | (k', v') :: rest, k, v =>
    if k' = k then (k', v) :: rest else (k', v') :: insKV rest k v

/-- A dictionary of file path to file content. -/
abbrev FilesDict := List (String × String)

/-- Python `{**left, **right}` (state.py line 31): a copy of `left`
into which every binding of `right` is written in order. -/
def dictMerge (left right : FilesDict) : FilesDict :=
  right.foldl (fun acc p => insKV acc p.1 p.2) left

/-- The keys of an association list are pairwise distinct — true of
every list that represents a Python dict. -/
def NodupKeys {α : Type} (d : List (String × α)) : Prop :=
  (d.map Prod.fst).Nodup

instance {α : Type} (d : List (String × α)) : Decidable (NodupKeys d) := by
  unfold NodupKeys; infer_instance

/-- `file_reducer` (state.py lines 19–33): `None` on the left yields the
right argument, `None` on the right yields the left, and two dicts are
merged with the right side taking precedence. -/
def file_reducer : Option FilesDict → Option FilesDict → Option FilesDict
  | none, right => right
  | some left, none => some left
  | some left, some right => some (dictMerge left right)

/-- Lookup of the last-written binding: Python dict update order means
the rightmost occurrence of a key in the merge source wins. -/
def rlookupKV {α : Type} (d : List (String × α)) (k : String) : Option α :=
  lookupKV d.reverse k

/-- Left-biased choice on `Option`. -/
def oor {α : Type} : Option α → Option α → Option α
  | some v, _ => some v
  | none, b => b

/-- A `Todo` record (state.py lines 12–16).  The `status` field is a
plain string: the `Literal` annotation in the source is a static hint
only, and the rendering code defends against other values. -/
structure Todo where
  content : String
  status : String
deriving DecidableEq

/-- A conversation message: role, content, and for tool responses the
id of the tool call being answered. -/
structure Msg where
  role : String
  content : String
  toolCallId : Option String
deriving DecidableEq

/-- The synthetic turn `{"role": "user", "content": description}`
built by the task tool (task_tool.py line 92). -/
def userMsg (content : String) : Msg := ⟨"user", content, none⟩

/-- A `ToolMessage(content, tool_call_id=...)`. -/
def toolMsg (content tool_call_id : String) : Msg := ⟨"tool", content, some tool_call_id⟩

/-- `DeepAgentState` (state.py lines 36–40): conversation, todo list
and virtual file system. -/
structure AgentState where
  messages : List Msg
  todos : List Todo
  files : FilesDict
deriving DecidableEq

/-- The `update` dictionary of a LangGraph `Command`: an absent key
leaves the corresponding channel untouched. -/
structure StateDelta where
  files : Option FilesDict
  todos : Option (List Todo)
  messages : List Msg
deriving DecidableEq

/-- The initial state of a conversation: no messages, todos or files. -/
def emptyState : AgentState := ⟨[], [], []⟩

/-- How LangGraph folds a `Command` update into the current state:
`messages` is append-only, `todos` has no reducer and is replaced when
present, and `files` goes through `file_reducer` (state.py line 40). -/
def applyDelta (s : AgentState) (d : StateDelta) : AgentState :=
  { messages := s.messages ++ d.messages
  , todos := match d.todos with | none => s.todos | some t => t
  , files := match file_reducer (some s.files) d.files with | some f => f | none => s.files }

/-! ### Python string primitives used by the tools -/
/-- Python `lst[i]`: non-negative indices from the front, negative
indices from the back, `IndexError` (here `none`) otherwise. -/
def pyGet {α : Type} (l : List α) (i : Int) : Option α :=
  if 0 ≤ i then l.get? i.toNat
  else if 0 ≤ (l.length : Int) + i then l.get? ((l.length : Int) + i).toNat
  else none

/-- Python `range(a, b)` over integers. -/
def rangeInt (a b : Int) : List Int :=
  (List.range (b - a).toNat).map (fun (k : Nat) => a + (k : Int))

/-- Python `sep.join(xs)`. -/
def joinWith (sep : String) : List String → String
  | [] => ""
  | [x] => x
  | x :: xs => x ++ sep ++ joinWith sep xs

/-- Python `f"{i:6d}"`: the decimal rendering of `i`, left-padded with
spaces to at least six characters. -/
def fmt6 (i : Int) : String :=
  String.mk (List.replicate (6 - (toString i).length) ' ') ++ toString i

/-- The line-boundary characters recognised by Python `str.splitlines`. -/
def isLineBreak (c : Char) : Bool :=
  c.toNat = 10 || c.toNat = 13 || c.toNat = 11 || c.toNat = 12 ||
  c.toNat = 28 || c.toNat = 29 || c.toNat = 30 || c.toNat = 133 ||
  c.toNat = 8232 || c.toNat = 8233

/-- Worker for `splitlinesPy`; `cur` is the current line, reversed. -/
def splitlinesGo : List Char → List Char → List (List Char)
  | [], cur => if cur.isEmpty then [] else [cur.reverse]
  | '\r' :: '\n' :: rest, cur => cur.reverse :: splitlinesGo rest []
  | c :: rest, cur =>
    if isLineBreak c then cur.reverse :: splitlinesGo rest []
    else splitlinesGo rest (c :: cur)

/-- Python `content.splitlines()`: split at line boundaries (with
`\r\n` counting as one) and drop a trailing empty line. -/
def splitlinesPy (s : String) : List String :=
  (splitlinesGo s.data []).map String.mk

/-- The whitespace characters stripped by Python `str.strip()` (ASCII
part; `Char.isWhitespace` covers space, tab, CR and LF). -/
def pyIsSpace (c : Char) : Bool :=
  c.isWhitespace || c.toNat = 11 || c.toNat = 12

/-- Python `str.strip()` on the underlying character list. -/
def stripChars (cs : List Char) : List Char :=
  ((cs.dropWhile pyIsSpace).reverse.dropWhile pyIsSpace).reverse

/-- Python `s.strip()`. -/
def pyStrip (s : String) : String := String.mk (stripChars s.data)

/-- Python `s[:n]`: the first `n` code points of `s`. -/
def pyTake (s : String) (n : Nat) : String := String.mk (s.data.take n)

/-- Python `c in s` for a single character. -/
def pyHasChar (s : String) (c : Char) : Bool := s.data.contains c

/-- The value produced by an in-range Python list access: front element
for a non-negative index, back element for a negative one.  Used to
state what `pyGet` returns when it does not raise. -/
def pyIndex (l : List String) (i : Int) : String :=
  if 0 ≤ i then l.getD i.toNat ""
  else l.getD ((l.length : Int) + i).toNat ""

/-! ### Virtual file store (file_tools.py) -/
/-- `ls` (file_tools.py lines 21–26): `list(state.get("files", {}).keys())`. -/
def ls (files : FilesDict) : List String := files.map Prod.fst

/-- `f"Error: File '{file_path}' not found"` (file_tools.py line 46). -/
def notFoundError (path : String) : String :=
  "Error: File '" ++ path ++ "' not found"

/-- The empty-file sentinel (file_tools.py line 51). -/
def emptyFileNotice : String := "System reminder: File exists but has empty contents"

/-- `f"Error: Line offset {offset} exceeds file length ({len(lines)} lines)"`
(file_tools.py line 64). -/
def offsetError (offset : Int) (n : Nat) : String :=
  "Error: Line offset " ++ toString offset ++ " exceeds file length ("
    ++ toString n ++ " lines)"

/-- One line of `read_file` output: `f"{i + 1:6d}\t{lines[i][:2000]}"`
(file_tools.py lines 68–69). -/
def renderLine (i : Int) (line : String) : String :=
  fmt6 (i + 1) ++ "\t" ++ pyTake line 2000

/-- `read_file` (file_tools.py lines 29–77).  The result is `none`
exactly when the Python code would raise (an `IndexError` from
`lines[i]`), and `some` of the returned string otherwise — returned
error messages are strings, not faults. -/
def read_file (files : FilesDict) (path : String) (offset limit : Int) : Option String :=
  match lookupKV files path with
  | none => some (notFoundError path)
  | some content =>
    if content = "" then some emptyFileNotice
    else if ((splitlinesPy content).length : Int) ≤ offset then
      some (offsetError offset (splitlinesPy content).length)
    else
      ((rangeInt offset (min (offset + limit) ((splitlinesPy content).length : Int))).mapM
        (fun i => (pyGet (splitlinesPy content) i).map (renderLine i))).map
        (fun rs => joinWith "\n" rs)

/-- The `logger.debug("File %s %s in virtual filesystem", ...)` line of
`write_file` (file_tools.py lines 92–96): the one emission that
distinguishes creating a file from updating one. -/
def write_file_log (files : FilesDict) (path : String) : String :=
  "File " ++ path ++ " "
    ++ (if (lookupKV files path).isSome then "updated" else "created")
    ++ " in virtual filesystem"

/-- `write_file` (file_tools.py lines 80–104): unconditionally store
the content under the path and report one tool message. -/
def write_file (files : FilesDict) (path content tool_call_id : String) : StateDelta :=
  { files := some (insKV files path content)
  , todos := none
  , messages := [toolMsg ("Updated file " ++ path) tool_call_id] }

/-! ### TODO store (todo_tools.py) -/
/-- The status-marker table of `read_todos` (todo_tools.py lines 48–49):
three fixed markers plus the `.get` fallback for unknown statuses. -/
def statusEmoji (status : String) : String :=
  if status = "pending" then "⏳"
  else if status = "in_progress" then "🔄"
  else if status = "completed" then "✅"
  else "❓"

/-- One rendered entry `f"{i}. {emoji} {todo['content']} ({todo['status']})"`
(todo_tools.py line 50), for the 1-based index `i`. -/
def todoLine (i : Nat) (t : Todo) : String :=
  toString i ++ ". " ++ statusEmoji t.status ++ " " ++ t.content
    ++ " (" ++ t.status ++ ")"

/-- The `result +=` loop of `read_todos`: each line followed by a
newline, concatenated in order. -/
def concatLines : List String → String
  | [] => ""
  | l :: ls => l ++ "\n" ++ concatLines ls

/-- `read_todos` (todo_tools.py lines 34–53). -/
def read_todos (todos : List Todo) : String :=
  if todos.isEmpty then "No todos currently in the list."
  else pyStrip ("Current TODO List:\n"
    ++ concatLines ((todos.enum).map (fun p => todoLine (p.1 + 1) p.2)))

/-! ### Task delegation (task_tool.py) -/
/-- Python `repr` of a string, for names free of quote characters
needing escapes: single quotes unless the string itself contains a
single quote and no double quote. -/
def pyReprStr (s : String) : String :=
  if pyHasChar s '\'' && !(pyHasChar s '"') then "\"" ++ s ++ "\""
  else "'" ++ s ++ "'"

/-- Python `str` of a list of strings: bracketed, comma-separated
`repr`s of the elements. -/
def pyListStr (items : List String) : String :=
  "[" ++ joinWith ", " (items.map pyReprStr) ++ "]"

/-- The behaviour of a compiled sub-agent is opaque to the task tool:
any function from invocation state to final state. -/
abbrev SubAgentFn := AgentState → AgentState

/-- The `agents` dictionary built by `_create_task_tool`
(task_tool.py lines 34–60): sub-agent name to compiled agent. -/
abbrev Registry := List (String × SubAgentFn)

/-- The unknown-sub-agent message (task_tool.py lines 81–87):
`allowed = [f"`{k}`" for k in agents]` interpolated into the error
f-string. -/
def unknownAgentError (agents : Registry) (subagent_type : String) : String :=
  "Error: invoked agent of type " ++ subagent_type
    ++ ", the only allowed types are "
    ++ pyListStr (agents.map (fun p => "`" ++ p.1 ++ "`"))

/-- The `task` tool (task_tool.py lines 66–112).  `none` models the
`IndexError` of `result["messages"][-1]` on an empty transcript; the
string side is the reported unknown-sub-agent error; the delta side is
the returned `Command` update. -/
def task (agents : Registry) (description subagent_type : String)
    (state : AgentState) (tool_call_id : String) : Option (Sum String StateDelta) :=
  match lookupKV agents subagent_type with
  | none => some (Sum.inl (unknownAgentError agents subagent_type))
  | some sub_agent =>
    let isolated : AgentState := { state with messages := [userMsg description] }
    let result := sub_agent isolated
    match result.messages.getLast? with
    | none => none
    | some lastMsg =>
      some (Sum.inr { files := some result.files, todos := none
                    , messages := [toolMsg lastMsg.content tool_call_id] })

/-- Fold a task-tool outcome into the caller's state: only a returned
`Command` update changes anything; an error string (or a fault) leaves
the state as it was. -/
def applyTaskResult (s : AgentState) : Option (Sum String StateDelta) → AgentState
  | some (Sum.inr d) => applyDelta s d
  | _ => s

/-- A concrete sub-agent for instantiating the delegation theorems: it
appends one assistant answer and writes one file. -/
def demoAgent (s : AgentState) : AgentState :=
  { s with
      messages := s.messages ++ [⟨"assistant", "done", none⟩],
      files := insKV s.files "result.md" "findings" }

/-- A registry holding only `demoAgent`. -/
def demoRegistry : Registry := [("research-agent", demoAgent)]

/-- A concrete parent state with one prior message, one todo and one file. -/
def demoParent : AgentState :=
  ⟨[userMsg "hi"], [⟨"research topic", "in_progress"⟩], [("notes.md", "n")]⟩

theorem oor_assoc {α : Type} (a b c : Option α) :
    oor (oor a b) c = oor a (oor b c) := by
  cases a <;> simp [oor]

theorem lookupKV_insKV_self {α : Type} (d : List (String × α)) (k : String) (v : α) :
    lookupKV (insKV d k v) k = some v := by
  induction d with
  | nil => simp [insKV, lookupKV]
  | cons p rest ih =>
    obtain ⟨k', v'⟩ := p
    by_cases h : k' = k <;> simp [insKV, lookupKV, h, ih]

theorem lookupKV_insKV_other {α : Type} (d : List (String × α)) (k k' : String) (v : α)
    (hne : k ≠ k') : lookupKV (insKV d k v) k' = lookupKV d k' := by
  induction d with
  | nil => simp [insKV, lookupKV, hne]
  | cons p rest ih =>
    obtain ⟨k0, v0⟩ := p
    by_cases h : k0 = k
    · subst h
      simp [insKV, lookupKV, hne]
    · simp [insKV, lookupKV, h, ih]

theorem oor_none_right {α : Type} (a : Option α) : oor a none = a := by
  cases a <;> simp [oor]

theorem lookupKV_append {α : Type} (xs ys : List (String × α)) (k : String) :
    lookupKV (xs ++ ys) k = oor (lookupKV xs k) (lookupKV ys k) := by
  induction xs with
  | nil => simp [lookupKV, oor]
  | cons p rest ih =>
    obtain ⟨k', v⟩ := p
    by_cases h : k' = k <;> simp [lookupKV, h, oor, ih]

theorem rlookupKV_cons {α : Type} (p : String × α) (rest : List (String × α)) (k : String) :
    rlookupKV (p :: rest) k
      = oor (rlookupKV rest k) (if p.1 = k then some p.2 else none) := by
  unfold rlookupKV
  rw [List.reverse_cons, lookupKV_append]
  by_cases h : p.1 = k <;> simp [lookupKV, h, oor_none_right]

theorem lookupKV_dictMerge (r : FilesDict) :
    ∀ (l : FilesDict) (k : String),
      lookupKV (dictMerge l r) k = oor (rlookupKV r k) (lookupKV l k) := by
  induction r with
  | nil => intro l k; simp [dictMerge, rlookupKV, lookupKV, oor]
  | cons p rest ih =>
    intro l k
    obtain ⟨kr, vr⟩ := p
    have step : dictMerge l ((kr, vr) :: rest) = dictMerge (insKV l kr vr) rest := rfl
    rw [step, ih, rlookupKV_cons, oor_assoc]
    by_cases hk : kr = k
    · subst hk
      rw [lookupKV_insKV_self]
      simp [oor]
    · rw [lookupKV_insKV_other l kr k vr hk]
      simp [hk, oor]

theorem lookupKV_eq_none_of_not_mem {α : Type} (d : List (String × α)) (k : String)
    (h : k ∉ d.map Prod.fst) : lookupKV d k = none := by
  induction d with
  | nil => rfl
  | cons p rest ih =>
    obtain ⟨k', v⟩ := p
    simp only [List.map_cons, List.mem_cons] at h
    push_neg at h
    have hne : ¬ k' = k := fun he => h.1 he.symm
    simp [lookupKV, hne, ih h.2]

theorem lookupKV_isSome_iff_mem {α : Type} (d : List (String × α)) (k : String) :
    (lookupKV d k).isSome = true ↔ k ∈ d.map Prod.fst := by
  induction d with
  | nil => simp [lookupKV]
  | cons p rest ih =>
    obtain ⟨k', v⟩ := p
    by_cases h : k' = k
    · subst h; simp [lookupKV]
    · simp only [lookupKV, if_neg h, List.map_cons, List.mem_cons, ih]
      constructor
      · exact Or.inr
      · rintro (he | hm)
        · exact absurd he.symm h
        · exact hm

theorem rlookupKV_isSome (d : FilesDict) (k : String) :
    (rlookupKV d k).isSome = (lookupKV d k).isSome := by
  cases hr : (rlookupKV d k).isSome <;> cases hl : (lookupKV d k).isSome <;> try rfl
  · rw [lookupKV_isSome_iff_mem] at hl
    unfold rlookupKV at hr
    rw [← Bool.not_eq_true, lookupKV_isSome_iff_mem] at hr
    exact absurd (by simpa using hl) hr
  · unfold rlookupKV at hr
    rw [lookupKV_isSome_iff_mem] at hr
    rw [← Bool.not_eq_true, lookupKV_isSome_iff_mem] at hl
    exact absurd (by simpa using hr) hl

theorem rlookupKV_eq_lookupKV {α : Type} (d : List (String × α)) (k : String)
    (h : NodupKeys d) : rlookupKV d k = lookupKV d k := by
  induction d with
  | nil => rfl
  | cons p rest ih =>
    obtain ⟨k', v⟩ := p
    unfold NodupKeys at h
    simp only [List.map_cons, List.nodup_cons] at h
    rw [rlookupKV_cons, ih h.2]
    by_cases hk : k' = k
    · subst hk
      have : lookupKV rest k' = none := lookupKV_eq_none_of_not_mem rest k' h.1
      simp [lookupKV, this, oor]
    · simp [lookupKV, hk, oor_none_right]

theorem mem_keys_insKV {α : Type} (d : List (String × α)) (k x : String) (v : α) :
    x ∈ (insKV d k v).map Prod.fst ↔ x ∈ d.map Prod.fst ∨ x = k := by
  induction d with
  | nil => simp [insKV]
  | cons p rest ih =>
    obtain ⟨k', v'⟩ := p
    by_cases h : k' = k
    · subst h
      by_cases hx : x = k' <;> simp [insKV, hx]
    · simp only [insKV, if_neg h, List.map_cons, List.mem_cons, ih]
      tauto

theorem nodupKeys_insKV {α : Type} (d : List (String × α)) (k : String) (v : α)
    (h : NodupKeys d) : NodupKeys (insKV d k v) := by
  induction d with
  | nil => simp [insKV, NodupKeys]
  | cons p rest ih =>
    obtain ⟨k', v'⟩ := p
    unfold NodupKeys at h ⊢
    simp only [List.map_cons, List.nodup_cons] at h
    by_cases hk : k' = k
    · subst hk
      have hins : insKV ((k', v') :: rest) k' v = (k', v) :: rest := by simp [insKV]
      rw [hins]
      simpa using h
    · have hins : insKV ((k', v') :: rest) k v = (k', v') :: insKV rest k v := by
        simp [insKV, hk]
      rw [hins]
      simp only [List.map_cons, List.nodup_cons]
      refine ⟨?_, ih h.2⟩
      rw [mem_keys_insKV]
      push_neg
      exact ⟨h.1, hk⟩

theorem nodupKeys_dictMerge (r : FilesDict) : ∀ (l : FilesDict),
    NodupKeys l → NodupKeys (dictMerge l r) := by
  induction r with
  | nil => intro l h; exact h
  | cons p rest ih =>
    intro l h
    exact ih (insKV l p.1 p.2) (nodupKeys_insKV l p.1 p.2 h)

/-! ### Further merge lemmas -/
theorem oor_isSome {α : Type} (a b : Option α) :
    (oor a b).isSome = (a.isSome || b.isSome) := by
  cases a <;> simp [oor]

theorem nodupKeys_foldl_dictMerge (us : List FilesDict) : ∀ (X : FilesDict),
    NodupKeys X → NodupKeys (us.foldl dictMerge X) := by
  induction us with
  | nil => intro X h; exact h
  | cons u rest ih =>
    intro X h
    exact ih (dictMerge X u) (nodupKeys_dictMerge u X h)

theorem nodupKeys_nil : NodupKeys ([] : FilesDict) := List.nodup_nil

theorem dictMerge_nil_right (l : FilesDict) : dictMerge l [] = l := rfl

/-- C1: `file_reducer` contract — `None` on either side yields the other
side, and merging two dicts yields the union of their key sets with the
incoming (right) side winning on every conflict and base-only keys
keeping the base value. -/
theorem file_reducer_contract :
    (∀ r : Option FilesDict, file_reducer none r = r) ∧
    (∀ l : Option FilesDict, file_reducer l none = l) ∧
    (∀ A B : FilesDict, file_reducer (some A) (some B) = some (dictMerge A B)) ∧
    (∀ A B : FilesDict, NodupKeys B →
      (∀ k v, lookupKV B k = some v → lookupKV (dictMerge A B) k = some v) ∧
      (∀ k, lookupKV B k = none → lookupKV (dictMerge A B) k = lookupKV A k) ∧
      (∀ k, (lookupKV (dictMerge A B) k).isSome
          = ((lookupKV A k).isSome || (lookupKV B k).isSome))) := by
  refine ⟨fun r => rfl, fun l => by cases l <;> rfl, fun A B => rfl, fun A B hB => ⟨?_, ?_, ?_⟩⟩
  · intro k v hv
    rw [lookupKV_dictMerge, rlookupKV_eq_lookupKV B k hB, hv]
    rfl
  · intro k hnone
    rw [lookupKV_dictMerge, rlookupKV_eq_lookupKV B k hB, hnone]
    rfl
  · intro k
    rw [lookupKV_dictMerge, oor_isSome, rlookupKV_isSome, Bool.or_comm]

/-- Witness for C1 at a concrete pair of file dicts: the incoming value
wins at the shared key `"b"`. -/
theorem file_reducer_contract_witness :
    NodupKeys [("b", "3"), ("c", "4")] ∧
    lookupKV (dictMerge [("a", "1"), ("b", "2")] [("b", "3"), ("c", "4")]) "b" = some "3" :=
  ⟨by decide,
    (file_reducer_contract.2.2.2 [("a", "1"), ("b", "2")] [("b", "3"), ("c", "4")]
      (by decide)).1 "b" "3" (by decide)⟩

/-- C8: the merge rule applied pairwise left-to-right agrees (as Python
dict equality, i.e. key-by-key) with merging the base against the fold
of the later updates, both for three dicts and for any sequence of
updates. -/
theorem merge_assoc :
    (∀ A B C : FilesDict,
      file_reducer (file_reducer (some A) (some B)) (some C)
        = some (dictMerge (dictMerge A B) C)) ∧
    (∀ A B C : FilesDict, NodupKeys B →
      ∀ k, lookupKV (dictMerge (dictMerge A B) C) k
          = lookupKV (dictMerge A (dictMerge B C)) k) ∧
    (∀ (updates : List FilesDict) (A : FilesDict),
      (∀ u ∈ updates, NodupKeys u) →
      ∀ k, lookupKV (updates.foldl dictMerge A) k
          = lookupKV (dictMerge A (updates.foldl dictMerge [])) k) := by
  have assoc : ∀ A B C : FilesDict, NodupKeys B →
      ∀ k, lookupKV (dictMerge (dictMerge A B) C) k
          = lookupKV (dictMerge A (dictMerge B C)) k := by
    intro A B C hB k
    rw [lookupKV_dictMerge, lookupKV_dictMerge, lookupKV_dictMerge,
      rlookupKV_eq_lookupKV (dictMerge B C) k (nodupKeys_dictMerge C B hB),
      lookupKV_dictMerge, rlookupKV_eq_lookupKV B k hB, oor_assoc]
  refine ⟨fun A B C => rfl, assoc, ?_⟩
  intro updates
  induction updates with
  | nil => intro A _ k; rfl
  | cons u rest ih =>
    intro A h k
    have hu : NodupKeys u := h u (List.mem_cons_self u rest)
    have hrest : ∀ v ∈ rest, NodupKeys v := fun v hv => h v (List.mem_cons_of_mem u hv)
    have hnorm : NodupKeys (dictMerge [] u) := nodupKeys_dictMerge u [] nodupKeys_nil
    simp only [List.foldl_cons]
    rw [ih (dictMerge A u) hrest k,
      lookupKV_dictMerge, lookupKV_dictMerge,
      lookupKV_dictMerge,
      rlookupKV_eq_lookupKV (rest.foldl dictMerge (dictMerge [] u)) k
        (nodupKeys_foldl_dictMerge rest (dictMerge [] u) hnorm),
      ih (dictMerge [] u) hrest k,
      lookupKV_dictMerge, lookupKV_dictMerge,
      rlookupKV_eq_lookupKV u k hu]
    simp only [lookupKV, oor_none_right, oor_assoc]

/-- Witness for C8 at concrete dicts: both groupings agree at the
shared key, and a three-update sequence folds correctly. -/
theorem merge_assoc_witness :
    NodupKeys [("b", "3"), ("c", "4")] ∧
    lookupKV (dictMerge (dictMerge [("a", "1")] [("b", "3"), ("c", "4")]) [("b", "9")]) "b"
      = lookupKV (dictMerge [("a", "1")] (dictMerge [("b", "3"), ("c", "4")] [("b", "9")])) "b" :=
  ⟨by decide,
    (merge_assoc.2.1 [("a", "1")] [("b", "3"), ("c", "4")] [("b", "9")] (by decide)) "b"⟩

/-- C6: `write_file` always succeeds, stores the content under the path
(creating or replacing), reports one tool message, and its debug
emission distinguishes the created case from the updated case. -/
theorem write_file_spec :
    ∀ (files : FilesDict) (path content tool_call_id : String),
      (write_file files path content tool_call_id).files = some (insKV files path content) ∧
      (∀ p, lookupKV (insKV files path content) p
          = if path = p then some content else lookupKV files p) ∧
      (write_file files path content tool_call_id).todos = none ∧
      (write_file files path content tool_call_id).messages
        = [toolMsg ("Updated file " ++ path) tool_call_id] ∧
      write_file_log files path
        = (if (lookupKV files path).isSome
            then "File " ++ path ++ " updated in virtual filesystem"
            else "File " ++ path ++ " created in virtual filesystem") ∧
      (∀ p : String, "File " ++ p ++ " updated in virtual filesystem"
          ≠ "File " ++ p ++ " created in virtual filesystem") := by
  intro files path content tool_call_id
  refine ⟨rfl, ?_, rfl, rfl, ?_, ?_⟩
  · intro p
    by_cases h : path = p
    · subst h
      simp [lookupKV_insKV_self]
    · simp [h, lookupKV_insKV_other files path p content h]
  · unfold write_file_log
    by_cases h : (lookupKV files path).isSome
    · rw [if_pos h, if_pos h]
      simp only [String.append_assoc]
      rfl
    · rw [if_neg h, if_neg h]
      simp only [String.append_assoc]
      rfl
  · intro p hcontra
    have hdata := congrArg String.data hcontra
    simp only [String.data_append] at hdata
    have h2 := List.append_cancel_left hdata
    exact absurd (congrArg String.mk h2) (by decide)

/-! ### Task-tool theorems -/
theorem pyReprStr_decomp (s : String) : ∃ a b, pyReprStr s = a ++ (s ++ b) := by
  unfold pyReprStr
  by_cases h : pyHasChar s '\'' && !(pyHasChar s '"')
  · exact ⟨"\"", "\"", by rw [if_pos h, String.append_assoc]⟩
  · exact ⟨"'", "'", by rw [if_neg h, String.append_assoc]⟩

theorem joinWith_decomp (sep : String) (f : String → String)
    (hf : ∀ s, ∃ a b, f s = a ++ (s ++ b)) :
    ∀ (names : List String) (name : String), name ∈ names →
      ∃ pre post, joinWith sep (names.map f) = pre ++ (name ++ post) := by
  intro names
  induction names with
  | nil => intro name hmem; exact absurd hmem (List.not_mem_nil name)
  | cons x xs ih =>
    intro name hmem
    rcases List.mem_cons.mp hmem with heq | hmem'
    · subst heq
      obtain ⟨a, b, hab⟩ := hf name
      cases xs with
      | nil => exact ⟨a, b, by simpa [joinWith] using hab⟩
      | cons y ys =>
        refine ⟨a, b ++ (sep ++ joinWith sep ((y :: ys).map f)), ?_⟩
        simp only [List.map_cons, joinWith, hab, String.append_assoc]
    · obtain ⟨pre, post, hJ⟩ := ih name hmem'
      cases xs with
      | nil => exact absurd hmem' (List.not_mem_nil name)
      | cons y ys =>
        refine ⟨f x ++ (sep ++ pre), post, ?_⟩
        simp only [List.map_cons] at hJ ⊢
        simp only [joinWith, hJ, String.append_assoc]

/-- C3: calling the task tool with an unregistered sub-agent name
returns the reported error string — which lists every registered
sub-agent name — rather than a state delta, and applying the outcome
leaves the parent state untouched. -/
theorem task_unknown_subagent :
    ∀ (agents : Registry) (description subagent_type : String)
      (state : AgentState) (tool_call_id : String),
      lookupKV agents subagent_type = none →
      task agents description subagent_type state tool_call_id
        = some (Sum.inl (unknownAgentError agents subagent_type)) ∧
      (∀ name ∈ agents.map Prod.fst, ∃ pre post,
        unknownAgentError agents subagent_type = pre ++ (name ++ post)) ∧
      applyTaskResult state (task agents description subagent_type state tool_call_id)
        = state := by
  intro agents description subagent_type state tool_call_id h
  have htask : task agents description subagent_type state tool_call_id
      = some (Sum.inl (unknownAgentError agents subagent_type)) := by
    unfold task; rw [h]
  refine ⟨htask, ?_, by rw [htask]; rfl⟩
  intro name hname
  have hmaps : (agents.map (fun p => "`" ++ p.1 ++ "`")).map pyReprStr
      = (agents.map Prod.fst).map (fun k => pyReprStr ("`" ++ k ++ "`")) := by
    simp only [List.map_map]
    rfl
  have hg : ∀ s, ∃ a b, pyReprStr ("`" ++ s ++ "`") = a ++ (s ++ b) := by
    intro s
    obtain ⟨a, b, hab⟩ := pyReprStr_decomp ("`" ++ s ++ "`")
    exact ⟨a ++ "`", "`" ++ b, by rw [hab]; simp only [String.append_assoc]⟩
  obtain ⟨pre, post, hJ⟩ :=
    joinWith_decomp ", " (fun k => pyReprStr ("`" ++ k ++ "`")) hg (agents.map Prod.fst)
      name hname
  refine ⟨"Error: invoked agent of type " ++ subagent_type
      ++ ", the only allowed types are " ++ ("[" ++ pre), post ++ "]", ?_⟩
  unfold unknownAgentError pyListStr
  rw [hmaps, hJ]
  simp only [String.append_assoc]

/-- Witness for C3: a delegation to `"nonexistent"` yields the error
string naming `research-agent`, and the parent state is unchanged. -/
theorem task_unknown_subagent_witness :
    lookupKV demoRegistry "nonexistent" = none ∧
    task demoRegistry "do X" "nonexistent" demoParent "c1"
      = some (Sum.inl ("Error: invoked agent of type nonexistent, "
          ++ "the only allowed types are ['`research-agent`']")) ∧
    applyTaskResult demoParent (task demoRegistry "do X" "nonexistent" demoParent "c1")
      = demoParent := by
  have h := task_unknown_subagent demoRegistry "do X" "nonexistent" demoParent "c1" rfl
  exact ⟨rfl, h.1.trans (by decide), h.2.2⟩

/-- C2: delegating to a registered sub-agent runs it on an isolated
state (parent files and todos, a single synthetic user turn holding the
task description), and the returned delta carries only the sub-agent's
files and one tool message holding the last transcript entry; applying
it merges the files by the merge rule, keeps the parent's todos and
prior messages, and grows the message sequence by exactly one. -/
theorem task_delegation_frame :
    ∀ (agents : Registry) (subagent_type : String) (subF : SubAgentFn)
      (description : String) (state : AgentState) (tool_call_id : String),
      lookupKV agents subagent_type = some subF →
      ∀ result : AgentState,
        result = subF (AgentState.mk [userMsg description] state.todos state.files) →
        result.messages ≠ [] →
        ∃ lastMsg,
          result.messages.getLast? = some lastMsg ∧
          task agents description subagent_type state tool_call_id
            = some (Sum.inr (StateDelta.mk (some result.files) none
                [toolMsg lastMsg.content tool_call_id])) ∧
          applyTaskResult state (task agents description subagent_type state tool_call_id)
            = AgentState.mk (state.messages ++ [toolMsg lastMsg.content tool_call_id])
                state.todos (dictMerge state.files result.files) ∧
          (applyTaskResult state
              (task agents description subagent_type state tool_call_id)).messages.length
            = state.messages.length + 1 := by
  intro agents subagent_type subF description state tool_call_id hlook result hres hne
  obtain ⟨lastMsg, hlast⟩ :=
    Option.isSome_iff_exists.mp (List.getLast?_isSome.mpr hne)
  have hstate : AgentState.mk [userMsg description] state.todos state.files
      = { state with messages := [userMsg description] } := rfl
  have htask : task agents description subagent_type state tool_call_id
      = some (Sum.inr (StateDelta.mk (some result.files) none
          [toolMsg lastMsg.content tool_call_id])) := by
    unfold task
    rw [hlook]
    simp only
    rw [← hstate, ← hres, hlast]
  refine ⟨lastMsg, hlast, htask, ?_, ?_⟩
  · rw [htask]
    rfl
  · rw [htask]
    simp [applyTaskResult, applyDelta]

/-- Witness for C2 at a concrete delegation: the sub-agent's answer
`"done"` comes back as the single new tool message, its file write is
merged in, and the parent's todos survive. -/
theorem task_delegation_frame_witness :
    (demoAgent (AgentState.mk [userMsg "find Y"] demoParent.todos demoParent.files)).messages
        ≠ [] ∧
    applyTaskResult demoParent (task demoRegistry "find Y" "research-agent" demoParent "c1")
      = AgentState.mk (demoParent.messages ++ [toolMsg "done" "c1"]) demoParent.todos
          (dictMerge demoParent.files
            (demoAgent (AgentState.mk [userMsg "find Y"] demoParent.todos
                demoParent.files)).files) ∧
    (applyTaskResult demoParent
        (task demoRegistry "find Y" "research-agent" demoParent "c1")).messages.length
      = demoParent.messages.length + 1 := by
  obtain ⟨lastMsg, hlast, _htask, happly, hlen⟩ :=
    task_delegation_frame demoRegistry "research-agent" demoAgent "find Y" demoParent "c1"
      rfl _ rfl (by decide)
  have hmsg : lastMsg = ⟨"assistant", "done", none⟩ := by
    rw [show (demoAgent (AgentState.mk [userMsg "find Y"] demoParent.todos
        demoParent.files)).messages.getLast?
        = some (⟨"assistant", "done", none⟩ : Msg) from rfl] at hlast
    exact (Option.some.inj hlast).symm
  rw [hmsg] at happly
  exact ⟨by decide, happly, hlen⟩

/-! ### Loop characterisation for `read_file` -/

theorem mem_rangeInt {a b i : Int} : i ∈ rangeInt a b ↔ a ≤ i ∧ i < b := by
  unfold rangeInt
  simp only [List.mem_map, List.mem_range]
  constructor
  · rintro ⟨k, hk, rfl⟩
    omega
  · intro h
    exact ⟨(i - a).toNat, by omega, by omega⟩

theorem length_rangeInt (a b : Int) : (rangeInt a b).length = (b - a).toNat := by
  unfold rangeInt
  simp

theorem get?_rangeInt (a b : Int) (j : Nat) (h : j < (b - a).toNat) :
    (rangeInt a b).get? j = some (a + j) := by
  unfold rangeInt
  rw [List.get?_map, List.get?_range h]
  rfl

theorem mapM_some_of_forall {α β : Type} (l : List α) (f : α → Option β) (g : α → β)
    (h : ∀ x ∈ l, f x = some (g x)) : l.mapM f = some (l.map g) := by
  induction l with
  | nil => rfl
  | cons a l ih =>
    rw [List.mapM_cons, h a (List.mem_cons_self a l),
      ih (fun x hx => h x (List.mem_cons_of_mem a hx))]
    rfl

theorem mapM_eq_none_of_mem {α β : Type} (l : List α) (f : α → Option β) (x : α)
    (hx : x ∈ l) (hfx : f x = none) : l.mapM f = none := by
  induction l with
  | nil => cases hx
  | cons a l ih =>
    rw [List.mapM_cons]
    rcases List.mem_cons.mp hx with heq | hmem
    · subst heq
      rw [hfx]
      rfl
    · cases hfa : f a with
      | none => rfl
      | some y =>
        rw [ih hmem]
        rfl

theorem mapM_some_cons {α β : Type} (l : List α) (f : α → Option β) (r : β) (rs : List β)
    (h : l.mapM f = some (r :: rs)) : ∃ x l', l = x :: l' ∧ f x = some r := by
  cases l with
  | nil =>
    rw [show (([] : List α).mapM f) = some [] from rfl] at h
    simp at h
  | cons a l' =>
    rw [List.mapM_cons] at h
    cases hfa : f a with
    | none =>
      rw [hfa] at h
      simp at h
    | some y =>
      rw [hfa] at h
      cases hml : l'.mapM f with
      | none =>
        rw [hml] at h
        simp at h
      | some ys =>
        rw [hml] at h
        simp at h
        exact ⟨a, l', rfl, by rw [hfa, h.1]⟩

theorem get?_eq_some_getD {α : Type} (l : List α) (n : Nat) (d : α) (h : n < l.length) :
    l.get? n = some (l.getD n d) := by
  cases hg : l.get? n with
  | none => exact absurd (List.get?_eq_none.mp hg) (by omega)
  | some v =>
    rw [List.getD_eq_get?, hg]
    rfl

theorem pyGet_eq_some (l : List String) (i : Int)
    (h1 : -(l.length : Int) ≤ i) (h2 : i < (l.length : Int)) :
    pyGet l i = some (pyIndex l i) := by
  unfold pyGet pyIndex
  by_cases h0 : 0 ≤ i
  · rw [if_pos h0, if_pos h0]
    exact get?_eq_some_getD l i.toNat "" (by omega)
  · rw [if_neg h0, if_pos (show 0 ≤ (l.length : Int) + i by omega), if_neg h0]
    exact get?_eq_some_getD l ((l.length : Int) + i).toNat "" (by omega)

theorem read_file_eq_of_none (files : FilesDict) (path : String) (offset limit : Int)
    (h : lookupKV files path = none) :
    read_file files path offset limit = some (notFoundError path) := by
  unfold read_file
  rw [h]

theorem read_file_eq_of_some (files : FilesDict) (path content : String) (offset limit : Int)
    (h : lookupKV files path = some content) :
    read_file files path offset limit =
      (if content = "" then some emptyFileNotice
       else if ((splitlinesPy content).length : Int) ≤ offset then
         some (offsetError offset (splitlinesPy content).length)
       else
         ((rangeInt offset (min (offset + limit) ((splitlinesPy content).length : Int))).mapM
           (fun i => (pyGet (splitlinesPy content) i).map (renderLine i))).map
           (fun rs => joinWith "\n" rs)) := by
  unfold read_file
  rw [h]

theorem read_file_render (files : FilesDict) (path content : String) (offset limit : Int)
    (hlook : lookupKV files path = some content) (hne : content ≠ "")
    (hlo : -((splitlinesPy content).length : Int) ≤ offset)
    (hhi : offset < ((splitlinesPy content).length : Int)) :
    read_file files path offset limit
      = some (joinWith "\n"
          ((rangeInt offset (min (offset + limit) ((splitlinesPy content).length : Int))).map
            (fun i => renderLine i (pyIndex (splitlinesPy content) i)))) := by
  have hm : (rangeInt offset (min (offset + limit) ((splitlinesPy content).length : Int))).mapM
      (fun i => (pyGet (splitlinesPy content) i).map (renderLine i))
      = some ((rangeInt offset
          (min (offset + limit) ((splitlinesPy content).length : Int))).map
          (fun i => renderLine i (pyIndex (splitlinesPy content) i))) := by
    apply mapM_some_of_forall
    intro i hi
    obtain ⟨hi1, hi2⟩ := mem_rangeInt.mp hi
    have hilt : i < ((splitlinesPy content).length : Int) := by
      have := min_le_right (offset + limit) ((splitlinesPy content).length : Int)
      omega
    rw [pyGet_eq_some _ _ (by omega) hilt]
    rfl
  rw [read_file_eq_of_some files path content offset limit hlook, if_neg hne,
    if_neg (not_le.mpr hhi), hm]
  rfl

theorem get?_enumFrom {α : Type} : ∀ (l : List α) (m j : Nat),
    (List.enumFrom m l).get? j = (l.get? j).map (fun x => (m + j, x)) := by
  intro l
  induction l with
  | nil => intro m j; simp [List.enumFrom]
  | cons a t ih =>
    intro m j
    cases j with
    | zero => simp [List.enumFrom]
    | succ j' =>
      show (List.enumFrom (m + 1) t).get? j' = (t.get? j').map (fun x => (m + (j' + 1), x))
      rw [ih (m + 1) j']
      have harg : m + 1 + j' = m + (j' + 1) := by omega
      rw [harg]

theorem rangeInt_map_slice (lines : List String) (a b : Int)
    (ha : 0 ≤ a) (hb : b ≤ (lines.length : Int)) :
    (rangeInt a b).map (fun i => renderLine i (pyIndex lines i))
      = (((lines.drop a.toNat).take (b - a).toNat).enumFrom a.toNat).map
          (fun p => fmt6 ((p.1 : Int) + 1) ++ "\t" ++ pyTake p.2 2000) := by
  apply List.ext_get?
  intro j
  by_cases hj : j < (b - a).toNat
  · rw [List.get?_map, get?_rangeInt a b j hj, List.get?_map, get?_enumFrom,
      List.get?_take hj, List.get?_drop]
    have hlen : a.toNat + j < lines.length := by omega
    rw [get?_eq_some_getD lines (a.toNat + j) "" hlen]
    show some (renderLine (a + (j : Int)) (pyIndex lines (a + (j : Int)))) = _
    unfold renderLine pyIndex
    rw [if_pos (show (0 : Int) ≤ a + (j : Int) by omega)]
    have hn1 : (a + (j : Int)).toNat = a.toNat + j := by omega
    rw [hn1]
    have hn2 : ((a.toNat + j : Nat) : Int) = a + (j : Int) := by omega
    show _ = some (fmt6 (((a.toNat + j : Nat) : Int) + 1) ++ "\t"
      ++ pyTake (lines.getD (a.toNat + j) "") 2000)
    rw [hn2]
  · have hlen1 : ((rangeInt a b).map (fun i => renderLine i (pyIndex lines i))).length ≤ j := by
      rw [List.length_map, length_rangeInt]
      omega
    have hlen2 : ((((lines.drop a.toNat).take (b - a).toNat).enumFrom a.toNat).map
        (fun p => fmt6 ((p.1 : Int) + 1) ++ "\t" ++ pyTake p.2 2000)).length ≤ j := by
      rw [List.length_map, List.enumFrom_length, List.length_take, List.length_drop]
      omega
    rw [List.get?_eq_none.mpr hlen1, List.get?_eq_none.mpr hlen2]

/-- C4: for a present, non-empty file and a non-negative offset,
`read_file` errors exactly when the offset is at or past the line
count, and otherwise renders the slice `[offset, min(offset+limit, n))`
as 1-based line numbers right-aligned to width 6, a tab, and the line
truncated to 2000 characters, joined by newlines; and the spec's
round trip `write_file` then `read_file` yields `"     1\thello"`. -/
theorem read_file_slice :
    (∀ (files : FilesDict) (path content : String) (offset limit : Int),
      lookupKV files path = some content → content ≠ "" → 0 ≤ offset →
      ((((splitlinesPy content).length : Int) ≤ offset →
        read_file files path offset limit
          = some (offsetError offset (splitlinesPy content).length)) ∧
      (offset < ((splitlinesPy content).length : Int) →
        read_file files path offset limit
          = some (joinWith "\n"
              (((((splitlinesPy content).drop offset.toNat).take
                    (min (offset + limit) ((splitlinesPy content).length : Int)
                      - offset).toNat).enumFrom offset.toNat).map
                (fun p => fmt6 ((p.1 : Int) + 1) ++ "\t" ++ pyTake p.2 2000)))))) ∧
    read_file (applyDelta emptyState (write_file emptyState.files "x.md" "hello" "t0")).files
        "x.md" 0 2000 = some "     1\thello" := by
  refine ⟨fun files path content offset limit hlook hne hoff => ⟨fun hge => ?_, fun hlt => ?_⟩, ?_⟩
  · rw [read_file_eq_of_some files path content offset limit hlook, if_neg hne, if_pos hge]
  · rw [read_file_render files path content offset limit hlook hne (by omega) hlt]
    exact congrArg (fun l => some (joinWith "\n" l))
      (rangeInt_map_slice (splitlinesPy content) offset
        (min (offset + limit) ((splitlinesPy content).length : Int)) hoff
        (min_le_right _ _))
  · decide

/-- Witness for C4 on a three-line file: offset 3 is rejected with the
out-of-range error, offset 2 returns exactly the numbered last line. -/
theorem read_file_slice_witness :
    lookupKV [("f", "a\nb\nc")] "f" = some "a\nb\nc" ∧
    read_file [("f", "a\nb\nc")] "f" 3 2000
      = some "Error: Line offset 3 exceeds file length (3 lines)" ∧
    read_file [("f", "a\nb\nc")] "f" 2 2000 = some "     3\tc" := by
  have h1 := (read_file_slice.1 [("f", "a\nb\nc")] "f" "a\nb\nc" 3 2000 rfl
    (by decide) (by decide)).1 (by decide)
  have h2 := (read_file_slice.1 [("f", "a\nb\nc")] "f" "a\nb\nc" 2 2000 rfl
    (by decide) (by decide)).2 (by decide)
  exact ⟨rfl, h1.trans (by decide), h2.trans (by decide)⟩

theorem mapM_render_some (lines : List String) (offset bnd : Int)
    (hlo : -(lines.length : Int) ≤ offset) (hbnd : bnd ≤ (lines.length : Int)) :
    (rangeInt offset bnd).mapM (fun i => (pyGet lines i).map (renderLine i))
      = some ((rangeInt offset bnd).map (fun i => renderLine i (pyIndex lines i))) := by
  apply mapM_some_of_forall
  intro i hi
  obtain ⟨hi1, hi2⟩ := mem_rangeInt.mp hi
  rw [pyGet_eq_some _ _ (by omega) (by omega)]
  rfl

/-- C5 counterexample: the claim says `read_file` never raises for any
integer offset, but at offset `-2` on a one-line file the Python code
raises `IndexError` from `lines[-2]` — the embedding returns `none`. -/
theorem read_file_fault_counterexample :
    read_file [("f", "hello")] "f" (-2) 2000 = none := by decide

/-- C5 (amended): `ls` and `write_file` are total, and `read_file`
returns a result or error string for every offset not below `-n`
(`n` the line count) — in particular for every non-negative offset;
it faults precisely when the file exists with non-empty content,
`offset < -n`, and the requested range is non-empty (`limit ≥ 1`). -/
theorem read_file_fault_characterisation :
    ∀ (files : FilesDict) (path : String) (offset limit : Int),
      read_file files path offset limit = none
        ↔ ∃ content, lookupKV files path = some content ∧ content ≠ "" ∧
            offset < -((splitlinesPy content).length : Int) ∧ 1 ≤ limit := by
  intro files path offset limit
  cases hlook : lookupKV files path with
  | none =>
    rw [read_file_eq_of_none files path offset limit hlook]
    simp [hlook]
  | some content =>
    rw [read_file_eq_of_some files path content offset limit hlook]
    by_cases hne : content = ""
    · subst hne
      rw [if_pos rfl]
      simp [hlook]
    · rw [if_neg hne]
      by_cases hge : ((splitlinesPy content).length : Int) ≤ offset
      · rw [if_pos hge]
        constructor
        · intro h
          exact absurd h (by simp)
        · rintro ⟨c, hc, hcne, hlt, hlim⟩
          have hcc : content = c := Option.some.inj hc
          subst hcc
          exfalso
          omega
      · rw [if_neg hge]
        push_neg at hge
        constructor
        · intro h
          rw [Option.map_eq_none'] at h
          by_cases hlo : -((splitlinesPy content).length : Int) ≤ offset
          · exfalso
            rw [mapM_render_some (splitlinesPy content) offset _ hlo (min_le_right _ _)] at h
            exact absurd h (by simp)
          · push_neg at hlo
            by_cases hlim : 1 ≤ limit
            · exact ⟨content, rfl, hne, hlo, hlim⟩
            · exfalso
              have hempty : rangeInt offset
                  (min (offset + limit) ((splitlinesPy content).length : Int)) = [] := by
                unfold rangeInt
                have hz : (min (offset + limit) ((splitlinesPy content).length : Int)
                    - offset).toNat = 0 := by omega
                rw [hz]
                rfl
              rw [hempty, List.mapM_nil] at h
              exact absurd h (by simp)
        · rintro ⟨c, hc, hcne, hlt, hlim⟩
          have hcc : content = c := Option.some.inj hc
          subst hcc
          rw [Option.map_eq_none']
          apply mapM_eq_none_of_mem _ _ offset
          · rw [mem_rangeInt]
            constructor
            · omega
            · omega
          · show (pyGet (splitlinesPy content) offset).map (renderLine offset) = none
            unfold pyGet
            rw [if_neg (by omega), if_neg (by omega)]
            rfl

/-! ### First characters of rendered lines and of error strings -/

theorem digitChar_isDigit (m : Nat) (h : m < 10) : (Nat.digitChar m).isDigit = true := by
  interval_cases m <;> decide

theorem toDigitsCore_ne_nil : ∀ (fuel n : Nat) (ds : List Char),
    (fuel ≠ 0 ∨ ds ≠ []) → Nat.toDigitsCore 10 fuel n ds ≠ [] := by
  intro fuel
  induction fuel with
  | zero =>
    intro n ds h
    rcases h with h0 | hds
    · exact absurd rfl h0
    · simpa [Nat.toDigitsCore] using hds
  | succ f ih =>
    intro n ds _
    simp only [Nat.toDigitsCore]
    by_cases hnb : n / 10 = 0
    · simp [hnb]
    · rw [if_neg hnb]
      exact ih (n / 10) (Nat.digitChar (n % 10) :: ds) (Or.inr (by simp))

theorem toDigitsCore_digits : ∀ (fuel n : Nat) (ds : List Char),
    (∀ c ∈ ds, c.isDigit = true) → ∀ c ∈ Nat.toDigitsCore 10 fuel n ds, c.isDigit = true := by
  intro fuel
  induction fuel with
  | zero =>
    intro n ds hds
    simpa [Nat.toDigitsCore] using hds
  | succ f ih =>
    intro n ds hds
    simp only [Nat.toDigitsCore]
    have hcons : ∀ c ∈ Nat.digitChar (n % 10) :: ds, c.isDigit = true := by
      intro c hc
      rcases List.mem_cons.mp hc with rfl | hm
      · exact digitChar_isDigit _ (Nat.mod_lt _ (by norm_num))
      · exact hds c hm
    by_cases hnb : n / 10 = 0
    · rw [if_pos hnb]
      exact hcons
    · rw [if_neg hnb]
      exact ih (n / 10) _ hcons

theorem natRepr_head (n : Nat) : ∃ c rest, (Nat.repr n).data = c :: rest ∧ c.isDigit = true := by
  have hne : Nat.toDigits 10 n ≠ [] := toDigitsCore_ne_nil (n + 1) n [] (Or.inl (by omega))
  have hdig : ∀ c ∈ Nat.toDigits 10 n, c.isDigit = true :=
    toDigitsCore_digits (n + 1) n [] (by intro c hc; cases hc)
  cases hl : Nat.toDigits 10 n with
  | nil => exact absurd hl hne
  | cons c rest =>
    refine ⟨c, rest, ?_, hdig c (by rw [hl]; exact List.mem_cons_self _ _)⟩
    show Nat.toDigits 10 n = c :: rest
    exact hl

theorem intRepr_head (i : Int) :
    ∃ c rest, (toString i).data = c :: rest ∧ (c = '-' ∨ c.isDigit = true) := by
  cases i with
  | ofNat m =>
    obtain ⟨c, rest, hd, hdig⟩ := natRepr_head m
    exact ⟨c, rest, hd, Or.inr hdig⟩
  | negSucc m =>
    refine ⟨'-', (Nat.repr (m + 1)).data, ?_, Or.inl rfl⟩
    rfl

theorem fmt6_head (i : Int) :
    ∃ c rest, (fmt6 i).data = c :: rest ∧ (c = ' ' ∨ c = '-' ∨ c.isDigit = true) := by
  unfold fmt6
  obtain ⟨c, rest, hd, hgood⟩ := intRepr_head i
  cases hp : 6 - (toString i).length with
  | zero =>
    refine ⟨c, rest, ?_, ?_⟩
    · show List.replicate 0 ' ' ++ (toString i).data = c :: rest
      rw [List.replicate_zero, List.nil_append, hd]
    · rcases hgood with h | h
      · exact Or.inr (Or.inl h)
      · exact Or.inr (Or.inr h)
  | succ k =>
    refine ⟨' ', List.replicate k ' ' ++ (toString i).data, ?_, Or.inl rfl⟩
    show List.replicate (k + 1) ' ' ++ (toString i).data
        = ' ' :: (List.replicate k ' ' ++ (toString i).data)
    rw [List.replicate_succ, List.cons_append]

theorem fmt6_prefix_head (x : Int) (s t : String) :
    ∃ c rest, (fmt6 x ++ s ++ t).data = c :: rest
      ∧ (c = ' ' ∨ c = '-' ∨ c.isDigit = true) := by
  obtain ⟨c, r0, hd, hg⟩ := fmt6_head x
  refine ⟨c, r0 ++ s.data ++ t.data, ?_, hg⟩
  rw [String.data_append, String.data_append, hd]
  simp [List.cons_append, List.append_assoc]

theorem goodHead_ne_E (c : Char) (h : c = ' ' ∨ c = '-' ∨ c.isDigit = true) : c ≠ 'E' := by
  rcases h with rfl | rfl | hd
  · decide
  · decide
  · intro he
    subst he
    exact absurd hd (by decide)

theorem joinWith_head (x : String) (xs : List String) (c : Char) (rest : List Char)
    (h : x.data = c :: rest) : ∃ tail, (joinWith "\n" (x :: xs)).data = c :: tail := by
  cases xs with
  | nil => exact ⟨rest, by simpa [joinWith] using h⟩
  | cons y ys =>
    refine ⟨rest ++ "\n".data ++ (joinWith "\n" (y :: ys)).data, ?_⟩
    show (x ++ "\n" ++ joinWith "\n" (y :: ys)).data = _
    rw [String.data_append, String.data_append, h]
    simp [List.cons_append, List.append_assoc]

theorem head_notFoundError (path : String) :
    ∃ t, (notFoundError path).data = 'E' :: t := by
  refine ⟨"rror: File '".data ++ path.data ++ "' not found".data, ?_⟩
  unfold notFoundError
  rw [String.data_append, String.data_append,
    show "Error: File '".data = 'E' :: "rror: File '".data from rfl]
  simp [List.cons_append, List.append_assoc]

theorem head_offsetError (offset : Int) (n : Nat) :
    ∃ t, (offsetError offset n).data = 'E' :: t := by
  refine ⟨"rror: Line offset ".data ++ (toString offset).data
    ++ " exceeds file length (".data ++ (toString n).data ++ " lines)".data, ?_⟩
  unfold offsetError
  rw [String.data_append, String.data_append, String.data_append, String.data_append,
    show "Error: Line offset ".data = 'E' :: "rror: Line offset ".data from rfl]
  simp [List.cons_append, List.append_assoc]

theorem joined_ne_error (L : List String)
    (hL : ∀ s ∈ L, ∃ c rest, s.data = c :: rest ∧ (c = ' ' ∨ c = '-' ∨ c.isDigit = true))
    (err : String) (htail : ∃ t, err.data = 'E' :: t) :
    joinWith "\n" L ≠ err := by
  intro h
  obtain ⟨t, ht⟩ := htail
  cases L with
  | nil =>
    rw [← h] at ht
    exact absurd ht (by simp [joinWith])
  | cons x xs =>
    obtain ⟨c, rest, hx, hg⟩ := hL x (List.mem_cons_self x xs)
    obtain ⟨tail, hjoin⟩ := joinWith_head x xs c rest hx
    rw [h, ht] at hjoin
    injection hjoin with h1 _
    exact goodHead_ne_E c hg h1.symm

theorem notFoundError_decomp (path : String) :
    ∃ t, (notFoundError path).data
      = 'E' :: 'r' :: 'r' :: 'o' :: 'r' :: ':' :: ' ' :: 'F' :: t := by
  refine ⟨"ile '".data ++ path.data ++ "' not found".data, ?_⟩
  unfold notFoundError
  rw [String.data_append, String.data_append,
    show "Error: File '".data
      = 'E' :: 'r' :: 'r' :: 'o' :: 'r' :: ':' :: ' ' :: 'F' :: "ile '".data from rfl]
  simp [List.cons_append, List.append_assoc]

theorem offsetError_decomp (offset : Int) (n : Nat) :
    ∃ t, (offsetError offset n).data
      = 'E' :: 'r' :: 'r' :: 'o' :: 'r' :: ':' :: ' ' :: 'L' :: t := by
  refine ⟨"ine offset ".data ++ (toString offset).data
    ++ " exceeds file length (".data ++ (toString n).data ++ " lines)".data, ?_⟩
  unfold offsetError
  rw [String.data_append, String.data_append, String.data_append, String.data_append,
    show "Error: Line offset ".data
      = 'E' :: 'r' :: 'r' :: 'o' :: 'r' :: ':' :: ' ' :: 'L' :: "ine offset ".data from rfl]
  simp [List.cons_append, List.append_assoc]

theorem offsetError_ne_notFoundError (offset : Int) (n : Nat) (path : String) :
    offsetError offset n ≠ notFoundError path := by
  intro h
  obtain ⟨t1, h1⟩ := offsetError_decomp offset n
  obtain ⟨t2, h2⟩ := notFoundError_decomp path
  rw [h, h2] at h1
  simp at h1

theorem joined_cons_ne_error (x : String) (xs : List String) (c : Char) (rest : List Char)
    (hx : x.data = c :: rest) (hgood : c = ' ' ∨ c = '-' ∨ c.isDigit = true)
    (err : String) (htail : ∃ t, err.data = 'E' :: t) :
    joinWith "\n" (x :: xs) ≠ err := by
  intro h
  obtain ⟨t, ht⟩ := htail
  obtain ⟨tail, hjoin⟩ := joinWith_head x xs c rest hx
  rw [h, ht] at hjoin
  injection hjoin with h1 _
  exact goodHead_ne_E c hgood h1.symm

theorem tab_mem_renderLine (i : Int) (line : String) : '\t' ∈ (renderLine i line).data := by
  show '\t' ∈ (fmt6 (i + 1) ++ "\t" ++ pyTake line 2000).data
  rw [String.data_append, String.data_append]
  have htab : '\t' ∈ "\t".data := by decide
  exact List.mem_append.mpr (Or.inl (List.mem_append.mpr (Or.inr htab)))

/-- C7: `read_file` returns the not-found error string exactly when the
path is absent, and a present path with empty content yields the fixed
empty-file sentinel for every offset — which is neither an error string
nor a numbered empty line. -/
theorem read_file_error_taxonomy :
    ∀ (files : FilesDict) (path : String) (offset limit : Int),
      (read_file files path offset limit = some (notFoundError path)
        ↔ lookupKV files path = none) ∧
      (lookupKV files path = some "" →
        read_file files path offset limit = some emptyFileNotice) ∧
      emptyFileNotice ≠ notFoundError path ∧
      (∀ i : Int, emptyFileNotice ≠ renderLine i "") := by
  intro files path offset limit
  refine ⟨⟨?_, ?_⟩, ?_, ?_, ?_⟩
  · intro h
    cases hlook : lookupKV files path with
    | none => rfl
    | some content =>
      exfalso
      rw [read_file_eq_of_some files path content offset limit hlook] at h
      obtain ⟨t2, h2⟩ := notFoundError_decomp path
      by_cases hne : content = ""
      · rw [if_pos hne] at h
        have heq : emptyFileNotice = notFoundError path := Option.some.inj h
        rw [← heq,
          show emptyFileNotice.data
            = 'S' :: "ystem reminder: File exists but has empty contents".data from rfl] at h2
        simp at h2
      · rw [if_neg hne] at h
        by_cases hge : ((splitlinesPy content).length : Int) ≤ offset
        · rw [if_pos hge] at h
          exact offsetError_ne_notFoundError offset _ path (Option.some.inj h)
        · rw [if_neg hge] at h
          obtain ⟨rs, hrs, hjoin⟩ := Option.map_eq_some'.mp h
          cases rs with
          | nil =>
            rw [← hjoin] at h2
            exact absurd h2 (by simp [joinWith])
          | cons r rs' =>
            obtain ⟨x, l', hl, hfx⟩ := mapM_some_cons _ _ r rs' hrs
            obtain ⟨line0, hpg, hr⟩ := Option.map_eq_some'.mp hfx
            obtain ⟨c, rest, hd, hg⟩ := fmt6_prefix_head (x + 1) "\t" (pyTake line0 2000)
            have hrd : r.data = c :: rest := by
              rw [← hr]
              exact hd
            exact joined_cons_ne_error r rs' c rest hrd hg (notFoundError path)
              ⟨_, h2⟩ hjoin
  · intro h
    rw [read_file_eq_of_none files path offset limit h]
  · intro h
    rw [read_file_eq_of_some files path "" offset limit h, if_pos rfl]
  · intro h
    obtain ⟨t2, h2⟩ := notFoundError_decomp path
    rw [← h,
      show emptyFileNotice.data
        = 'S' :: "ystem reminder: File exists but has empty contents".data from rfl] at h2
    simp at h2
  · intro i h
    have hmem : '\t' ∈ (renderLine i "").data := tab_mem_renderLine i ""
    rw [← h] at hmem
    exact absurd hmem (by decide)

/-- Witness for C7: reading an absent path errors, and a present file
with empty content returns the sentinel even at a positive offset. -/
theorem read_file_error_taxonomy_witness :
    lookupKV [("e.md", "")] "e.md" = some "" ∧
    read_file [("e.md", "")] "e.md" 5 2000 = some emptyFileNotice ∧
    read_file ([] : FilesDict) "nope" 0 2000 = some (notFoundError "nope") := by
  refine ⟨rfl, (read_file_error_taxonomy [("e.md", "")] "e.md" 5 2000).2.1 rfl, ?_⟩
  exact (read_file_error_taxonomy [] "nope" 0 2000).1.mpr rfl

theorem rangeInt_append (a m b : Int) (h1 : a ≤ m) (h2 : m ≤ b) :
    rangeInt a b = rangeInt a m ++ rangeInt m b := by
  unfold rangeInt
  have hsplit : (b - a).toNat = (m - a).toNat + (b - m).toNat := by omega
  rw [hsplit, List.range_add, List.map_append, List.map_map]
  congr 1
  apply List.map_congr_left
  intro k _
  show a + (((m - a).toNat + k : Nat) : Int) = m + (k : Int)
  omega

theorem rangeInt_map_neg (lines : List String) (a : Int)
    (ha : -(lines.length : Int) ≤ a) (ha0 : a ≤ 0) :
    (rangeInt a 0).map (fun i => renderLine i (pyIndex lines i))
      = ((lines.drop ((lines.length : Int) + a).toNat).enum).map
          (fun p => fmt6 (a + (p.1 : Int) + 1) ++ "\t" ++ pyTake p.2 2000) := by
  apply List.ext_get?
  intro j
  by_cases hj : j < (0 - a).toNat
  · rw [List.get?_map, get?_rangeInt a 0 j hj, List.get?_map,
      show (lines.drop ((lines.length : Int) + a).toNat).enum
        = (lines.drop ((lines.length : Int) + a).toNat).enumFrom 0 from rfl,
      get?_enumFrom, List.get?_drop]
    have hlen : ((lines.length : Int) + a).toNat + j < lines.length := by omega
    rw [get?_eq_some_getD lines _ "" hlen]
    show some (renderLine (a + (j : Int)) (pyIndex lines (a + (j : Int)))) = _
    unfold renderLine pyIndex
    rw [if_neg (show ¬ (0 : Int) ≤ a + (j : Int) by omega)]
    have hn1 : ((lines.length : Int) + (a + (j : Int))).toNat
        = ((lines.length : Int) + a).toNat + j := by omega
    rw [hn1]
    show _ = some (fmt6 (a + ((0 + j : Nat) : Int) + 1) ++ "\t"
      ++ pyTake (lines.getD (((lines.length : Int) + a).toNat + j) "") 2000)
    have hn2 : (0 + j : Nat) = j := by omega
    rw [hn2]
  · have hlen1 : ((rangeInt a 0).map (fun i => renderLine i (pyIndex lines i))).length ≤ j := by
      rw [List.length_map, length_rangeInt]
      omega
    have hlen2 : (((lines.drop ((lines.length : Int) + a).toNat).enum).map
        (fun p => fmt6 (a + (p.1 : Int) + 1) ++ "\t" ++ pyTake p.2 2000)).length ≤ j := by
      rw [List.length_map, List.enum_length, List.length_drop]
      omega
    rw [List.get?_eq_none.mpr hlen1, List.get?_eq_none.mpr hlen2]

theorem rangeInt_map_full (lines : List String) :
    (rangeInt 0 (lines.length : Int)).map (fun i => renderLine i (pyIndex lines i))
      = lines.enum.map (fun p => fmt6 ((p.1 : Int) + 1) ++ "\t" ++ pyTake p.2 2000) := by
  rw [rangeInt_map_slice lines 0 (lines.length : Int) (le_refl 0) (le_refl _)]
  rw [show ((0 : Int)).toNat = 0 from rfl, List.drop_zero,
    show (((lines.length : Int) - 0).toNat) = lines.length from by omega, List.take_length]
  rfl

/-- C10 (implicit): a negative offset with `-n ≤ offset < 0` and a
large enough limit is accepted, not rejected: the output renders the
last `-offset` lines under the non-positive labels `offset+1 … 0`
followed by the entire file under labels `1 … n`, so the tail lines
appear twice — and the result is not one of the error strings. -/
theorem read_file_negative_offset :
    ∀ (files : FilesDict) (path content : String) (offset limit : Int),
      lookupKV files path = some content →
      content ≠ "" →
      -((splitlinesPy content).length : Int) ≤ offset →
      offset < 0 →
      ((splitlinesPy content).length : Int) - offset ≤ limit →
      read_file files path offset limit
        = some (joinWith "\n"
            (((((splitlinesPy content).drop
                  (((splitlinesPy content).length : Int) + offset).toNat).enum).map
                (fun p => fmt6 (offset + (p.1 : Int) + 1) ++ "\t" ++ pyTake p.2 2000))
              ++ ((splitlinesPy content).enum.map
                (fun p => fmt6 ((p.1 : Int) + 1) ++ "\t" ++ pyTake p.2 2000)))) ∧
      read_file files path offset limit ≠ some (notFoundError path) ∧
      read_file files path offset limit
        ≠ some (offsetError offset (splitlinesPy content).length) := by
  intro files path content offset limit hlook hne hlo hneg hlim
  have hn0 : (0 : Int) ≤ ((splitlinesPy content).length : Int) := by omega
  have hmin : min (offset + limit) ((splitlinesPy content).length : Int)
      = ((splitlinesPy content).length : Int) := min_eq_right (by omega)
  have hrender := read_file_render files path content offset limit hlook hne hlo (by omega)
  rw [hmin] at hrender
  rw [rangeInt_append offset 0 ((splitlinesPy content).length : Int) (by omega) hn0,
    List.map_append, rangeInt_map_neg (splitlinesPy content) offset hlo (by omega),
    rangeInt_map_full (splitlinesPy content)] at hrender
  refine ⟨hrender, ?_, ?_⟩
  · rw [hrender]
    intro hcontra
    have heq := Option.some.inj hcontra
    cases hL : (((splitlinesPy content).drop
        (((splitlinesPy content).length : Int) + offset).toNat).enum).map
        (fun p => fmt6 (offset + (p.1 : Int) + 1) ++ "\t" ++ pyTake p.2 2000) with
    | nil =>
      rw [hL] at heq
      have hlenL : ((((splitlinesPy content).drop
          (((splitlinesPy content).length : Int) + offset).toNat).enum).map
          (fun p => fmt6 (offset + (p.1 : Int) + 1) ++ "\t" ++ pyTake p.2 2000)).length
          = (-offset).toNat := by
        rw [List.length_map, List.enum_length, List.length_drop]
        omega
      rw [hL] at hlenL
      simp at hlenL
      omega
    | cons y ys =>
      rw [hL] at heq
      obtain ⟨q, hq, hyq⟩ : ∃ q, q ∈ (((splitlinesPy content).drop
          (((splitlinesPy content).length : Int) + offset).toNat).enum) ∧
          y = fmt6 (offset + (q.1 : Int) + 1) ++ "\t" ++ pyTake q.2 2000 := by
        have : y ∈ (((splitlinesPy content).drop
            (((splitlinesPy content).length : Int) + offset).toNat).enum).map
            (fun p => fmt6 (offset + (p.1 : Int) + 1) ++ "\t" ++ pyTake p.2 2000) := by
          rw [hL]
          exact List.mem_cons_self y ys
        obtain ⟨q, hq, hyq⟩ := List.mem_map.mp this
        exact ⟨q, hq, hyq.symm⟩
      obtain ⟨c, rest, hd, hg⟩ := fmt6_prefix_head (offset + (q.1 : Int) + 1) "\t" (pyTake q.2 2000)
      have hyd : y.data = c :: rest := by
        rw [hyq]
        exact hd
      obtain ⟨t2, h2⟩ := notFoundError_decomp path
      exact joined_cons_ne_error y (ys ++ (splitlinesPy content).enum.map
          (fun p => fmt6 ((p.1 : Int) + 1) ++ "\t" ++ pyTake p.2 2000)) c rest hyd hg
        (notFoundError path) ⟨_, h2⟩ (by rw [← List.cons_append]; exact heq)
  · rw [hrender]
    intro hcontra
    have heq := Option.some.inj hcontra
    cases hL : (((splitlinesPy content).drop
        (((splitlinesPy content).length : Int) + offset).toNat).enum).map
        (fun p => fmt6 (offset + (p.1 : Int) + 1) ++ "\t" ++ pyTake p.2 2000) with
    | nil =>
      have hlenL : ((((splitlinesPy content).drop
          (((splitlinesPy content).length : Int) + offset).toNat).enum).map
          (fun p => fmt6 (offset + (p.1 : Int) + 1) ++ "\t" ++ pyTake p.2 2000)).length
          = (-offset).toNat := by
        rw [List.length_map, List.enum_length, List.length_drop]
        omega
      rw [hL] at hlenL
      simp at hlenL
      omega
    | cons y ys =>
      rw [hL] at heq
      obtain ⟨q, hq, hyq⟩ : ∃ q, q ∈ (((splitlinesPy content).drop
          (((splitlinesPy content).length : Int) + offset).toNat).enum) ∧
          y = fmt6 (offset + (q.1 : Int) + 1) ++ "\t" ++ pyTake q.2 2000 := by
        have : y ∈ (((splitlinesPy content).drop
            (((splitlinesPy content).length : Int) + offset).toNat).enum).map
            (fun p => fmt6 (offset + (p.1 : Int) + 1) ++ "\t" ++ pyTake p.2 2000) := by
          rw [hL]
          exact List.mem_cons_self y ys
        obtain ⟨q, hq, hyq⟩ := List.mem_map.mp this
        exact ⟨q, hq, hyq.symm⟩
      obtain ⟨c, rest, hd, hg⟩ := fmt6_prefix_head (offset + (q.1 : Int) + 1) "\t" (pyTake q.2 2000)
      have hyd : y.data = c :: rest := by
        rw [hyq]
        exact hd
      obtain ⟨t2, h2⟩ := offsetError_decomp offset (splitlinesPy content).length
      exact joined_cons_ne_error y (ys ++ (splitlinesPy content).enum.map
          (fun p => fmt6 ((p.1 : Int) + 1) ++ "\t" ++ pyTake p.2 2000)) c rest hyd hg
        (offsetError offset (splitlinesPy content).length) ⟨_, h2⟩
        (by rw [← List.cons_append]; exact heq)

/-- Witness for C10 on the two-line file `"a\nb"` at offset `-1` with
limit `3`: the last line appears first under label `0`, then the whole
file under labels `1` and `2`. -/
theorem read_file_negative_offset_witness :
    lookupKV [("f", "a\nb")] "f" = some "a\nb" ∧
    read_file [("f", "a\nb")] "f" (-1) 3 = some "     0\tb\n     1\ta\n     2\tb" := by
  have h := (read_file_negative_offset [("f", "a\nb")] "f" "a\nb" (-1) 3 rfl
    (by decide) (by decide) (by decide) (by decide)).1
  exact ⟨rfl, h.trans (by decide)⟩

/-! ### Stripping and joining for `read_todos` -/

theorem concatLines_data : ∀ (ls : List String) (l : String),
    (concatLines (l :: ls)).data = (joinWith "\n" (l :: ls)).data ++ ['\n'] := by
  intro ls
  induction ls with
  | nil =>
    intro l
    show (l ++ "\n" ++ concatLines []).data = (joinWith "\n" [l]).data ++ ['\n']
    rw [String.data_append, String.data_append]
    simp [concatLines, joinWith]
  | cons x xs ih =>
    intro l
    show (l ++ "\n" ++ concatLines (x :: xs)).data
        = (joinWith "\n" (l :: x :: xs)).data ++ ['\n']
    rw [String.data_append, String.data_append, ih x]
    show l.data ++ "\n".data ++ ((joinWith "\n" (x :: xs)).data ++ ['\n'])
        = (l ++ "\n" ++ joinWith "\n" (x :: xs)).data ++ ['\n']
    rw [String.data_append, String.data_append]
    simp [List.append_assoc]

theorem joinWith_end : ∀ (ls : List String), ls ≠ [] →
    (∀ s ∈ ls, ∃ ys, s.data = ys ++ [')']) →
    ∃ zs, (joinWith "\n" ls).data = zs ++ [')'] := by
  intro ls
  induction ls with
  | nil =>
    intro h
    exact absurd rfl h
  | cons x xs ih =>
    intro _ hall
    cases xs with
    | nil =>
      obtain ⟨ys, hys⟩ := hall x (List.mem_cons_self x [])
      exact ⟨ys, by simpa [joinWith] using hys⟩
    | cons y ys' =>
      obtain ⟨zs, hzs⟩ := ih (by simp) (fun s hs => hall s (List.mem_cons_of_mem x hs))
      refine ⟨x.data ++ "\n".data ++ zs, ?_⟩
      show (x ++ "\n" ++ joinWith "\n" (y :: ys')).data = _
      rw [String.data_append, String.data_append, hzs]
      simp [List.append_assoc]

theorem todoLine_end (i : Nat) (t : Todo) : ∃ ys, (todoLine i t).data = ys ++ [')'] :=
  ⟨(toString i ++ ". " ++ statusEmoji t.status ++ " " ++ t.content
    ++ " (" ++ t.status).data, rfl⟩

theorem stripChars_wrap (c d : Char) (xs : List Char)
    (hc : pyIsSpace c = false) (hd : pyIsSpace d = false) :
    stripChars (c :: (xs ++ [d, '\n'])) = c :: (xs ++ [d]) := by
  unfold stripChars
  rw [List.dropWhile_cons, if_neg (by simp [hc])]
  rw [List.reverse_cons,
    show (xs ++ [d, '\n']).reverse = '\n' :: d :: xs.reverse from by simp,
    List.cons_append, List.cons_append]
  rw [List.dropWhile_cons, if_pos (by decide)]
  rw [List.dropWhile_cons, if_neg (by simp [hd])]
  rw [List.reverse_cons, List.reverse_append, List.reverse_reverse]
  simp

theorem pyStrip_header_join (l0 : String) (L' : List String)
    (hend : ∀ s ∈ l0 :: L', ∃ ys, s.data = ys ++ [')']) :
    pyStrip ("Current TODO List:\n" ++ concatLines (l0 :: L'))
      = "Current TODO List:\n" ++ joinWith "\n" (l0 :: L') := by
  obtain ⟨zs, hzs⟩ := joinWith_end (l0 :: L') (by simp) hend
  unfold pyStrip
  have hdata : ("Current TODO List:\n" ++ concatLines (l0 :: L')).data
      = 'C' :: (("urrent TODO List:\n".data ++ zs) ++ [')', '\n']) := by
    rw [String.data_append, concatLines_data L' l0, hzs,
      show "Current TODO List:\n".data = 'C' :: "urrent TODO List:\n".data from rfl]
    simp [List.cons_append, List.append_assoc]
  rw [hdata,
    stripChars_wrap 'C' ')' ("urrent TODO List:\n".data ++ zs) (by decide) (by decide)]
  have hdata2 : ("Current TODO List:\n" ++ joinWith "\n" (l0 :: L')).data
      = 'C' :: (("urrent TODO List:\n".data ++ zs) ++ [')']) := by
    rw [String.data_append, hzs,
      show "Current TODO List:\n".data = 'C' :: "urrent TODO List:\n".data from rfl]
    simp [List.cons_append, List.append_assoc]
  rw [← hdata2]

/-- C9: `read_todos` on an empty list is the fixed no-todos message;
otherwise it renders one line per todo, 1-indexed in list order, each
as index, status marker, content and parenthesised status; the three
known statuses have three pairwise distinct markers, and any other
status falls back to the fourth "unknown" marker. -/
theorem read_todos_render :
    (read_todos [] = "No todos currently in the list.") ∧
    (∀ todos : List Todo, todos ≠ [] →
      read_todos todos
        = "Current TODO List:\n"
          ++ joinWith "\n" ((todos.enum).map (fun p => todoLine (p.1 + 1) p.2))) ∧
    (statusEmoji "pending" ≠ statusEmoji "in_progress"
      ∧ statusEmoji "pending" ≠ statusEmoji "completed"
      ∧ statusEmoji "in_progress" ≠ statusEmoji "completed") ∧
    (∀ s, s ≠ "pending" → s ≠ "in_progress" → s ≠ "completed" → statusEmoji s = "❓") ∧
    (∀ (i : Nat) (t : Todo), todoLine i t
        = toString i ++ ". " ++ statusEmoji t.status ++ " " ++ t.content
          ++ " (" ++ t.status ++ ")") := by
  refine ⟨rfl, ?_, by decide, ?_, fun i t => rfl⟩
  · intro todos hne
    cases todos with
    | nil => exact absurd rfl hne
    | cons t ts =>
      unfold read_todos
      rw [if_neg (by simp)]
      have hLcons : ((t :: ts).enum).map (fun p => todoLine (p.1 + 1) p.2)
          = todoLine 1 t :: ((List.enumFrom 1 ts).map (fun p => todoLine (p.1 + 1) p.2)) := rfl
      rw [hLcons]
      apply pyStrip_header_join
      intro s hs
      rw [← hLcons] at hs
      obtain ⟨p, hp, hps⟩ := List.mem_map.mp hs
      rw [← hps]
      exact todoLine_end (p.1 + 1) p.2
  · intro s h1 h2 h3
    unfold statusEmoji
    rw [if_neg h1, if_neg h2, if_neg h3]

/-- Witness for C9 at the spec's example list: two lines, 1-based
indices, distinct markers. -/
theorem read_todos_render_witness :
    (([⟨"a", "pending"⟩, ⟨"b", "completed"⟩] : List Todo) ≠ []) ∧
    read_todos [⟨"a", "pending"⟩, ⟨"b", "completed"⟩]
      = "Current TODO List:\n1. ⏳ a (pending)\n2. ✅ b (completed)" := by
  have h := read_todos_render.2.1 [⟨"a", "pending"⟩, ⟨"b", "completed"⟩] (by decide)
  exact ⟨by decide, h.trans (by decide)⟩

/-- Witness for C6: writing to a fresh path creates it and logs
"created"; writing over an existing path logs "updated". -/
theorem write_file_spec_witness :
    (write_file [] "x.md" "hello" "t0").files = some [("x.md", "hello")] ∧
    lookupKV (insKV [] "x.md" "hello") "x.md" = some "hello" ∧
    write_file_log [] "x.md" = "File x.md created in virtual filesystem" ∧
    write_file_log [("x.md", "old")] "x.md" = "File x.md updated in virtual filesystem" := by
  have h := write_file_spec [] "x.md" "hello" "t0"
  have h2 := write_file_spec [("x.md", "old")] "x.md" "hello" "t1"
  exact ⟨h.1.trans (by decide), (h.2.1 "x.md").trans (by decide),
    h.2.2.2.2.1.trans (by decide), h2.2.2.2.2.1.trans (by decide)⟩

/-- Witness for the amended C5: the fault condition holds at offset
`-2` on a one-line file, and offset `-1` (in range) does not fault. -/
theorem read_file_fault_characterisation_witness :
    read_file [("f", "hello")] "f" (-2) 2000 = none ∧
    (read_file [("f", "hello")] "f" (-1) 2000).isSome = true :=
  ⟨(read_file_fault_characterisation [("f", "hello")] "f" (-2) 2000).mpr
      ⟨"hello", rfl, by decide, by decide, by decide⟩,
   by decide⟩

end DeepAgents
